import Mathlib

/-!
Shallow embedding of
src/public/apps/configuration/panels/role-edit/index-permission-panel.tsx
from the security-dashboards-plugin repository.

Modelling choices:
- A JS string is embedded as a list of characters (abbreviation Str below).
- The TS union type FieldLevelSecurityMethod = include-or-exclude is stringly
  typed in the source, so it is embedded as Str as well; the two legal values
  are the character lists of the words include and exclude.
- Combo-box options (from combo-box-utils, outside this excerpt) wrap a label
  string; the two conversion helpers are a label-wrapping bijection.
-/

abbrev Str := List Char

/-- Modelled from the spec: a combo-box option from combo-box-utils (the file
is not part of this excerpt). The spec says each token becomes a selectable
option; an option carries the token as its label. -/
structure ComboBoxOption where
  label : Str
deriving DecidableEq, Repr

abbrev ComboBoxOptions := List ComboBoxOption

/-- Modelled from the spec: stringToComboBoxOption from combo-box-utils wraps
a token string into an option. -/
def stringToComboBoxOption (s : Str) : ComboBoxOption := ⟨s⟩

/-- Modelled from the spec: comboBoxOptionToString from combo-box-utils
converts an option back to its string form (its label). -/
def comboBoxOptionToString (o : ComboBoxOption) : Str := o.label

/-- The stringly-typed TS union FieldLevelSecurityMethod. -/
abbrev FieldLevelSecurityMethod := Str

/-- Wire shape RoleIndexPermission (from ../../types): the backend-facing
record of one index permission. -/
structure RoleIndexPermission where
  index_patterns : List Str
  dls : Str
  fls : List Str
  masked_fields : List Str
  allowed_actions : List Str
deriving DecidableEq, Repr

/-- Editable form state RoleIndexPermissionStateClass (from ./types). -/
structure RoleIndexPermissionStateClass where
  indexPatterns : ComboBoxOptions
  allowedActions : ComboBoxOptions
  docLevelSecurity : Str
  fieldLevelSecurityMethod : FieldLevelSecurityMethod
  fieldLevelSecurityFields : ComboBoxOptions
  maskedFields : ComboBoxOptions
deriving DecidableEq, Repr

/-- Embeds getEmptyIndexPermission (lines 42-51): the fresh entry appended by
the add button. The empty JS string is the empty character list. -/
def getEmptyIndexPermission : RoleIndexPermissionStateClass :=
  { indexPatterns := []
    allowedActions := []
    docLevelSecurity := []
    fieldLevelSecurityMethod := "exclude".data
    fieldLevelSecurityFields := []
    maskedFields := [] }

/-- Embeds the JS test s.startsWith applied to the tilde marker: a string
starts with the one-character marker iff its first character is the tilde. -/
def startsWithTilde : Str → Bool
  | [] => false
  | c :: _ => c == '~'

/-- Embeds getFieldLevelSecurityMethod (lines 59-64): a leading tilde on any
token indicates exclude, otherwise include. -/
def getFieldLevelSecurityMethod (fieldLevelSecurityRawFields : List Str) :
    FieldLevelSecurityMethod :=
  if fieldLevelSecurityRawFields.any startsWithTilde then "exclude".data
  else "include".data

/-- Embeds the JS regex replace of one leading tilde with the empty string:
removes a single leading tilde when present, otherwise leaves the string
unchanged. -/
def stripLeadingTilde : Str → Str
  | [] => []
  | c :: rest => if c == '~' then rest else c :: rest

/-- Embeds getFieldLevelSecurityFields (lines 72-76): remove the leading
tilde from every token and convert to combo box options. -/
def getFieldLevelSecurityFields (fieldLevelSecurityRawFields : List Str) :
    ComboBoxOptions :=
  (fieldLevelSecurityRawFields.map stripLeadingTilde).map stringToComboBoxOption

/-- Embeds packFieldLevelSecurity (lines 78-84): convert each option to its
string; when the method is not the include method, prepend the tilde marker
to every string. -/
def packFieldLevelSecurity (method : FieldLevelSecurityMethod)
    (fieldOptions : ComboBoxOptions) : List Str :=
  let fields := fieldOptions.map comboBoxOptionToString
  if method = "include".data then fields
  else fields.map (fun field => '~' :: field)

/-- Embeds buildIndexPermissionState (lines 86-97). -/
def buildIndexPermissionState (indexPerm : List RoleIndexPermission) :
    List RoleIndexPermissionStateClass :=
  indexPerm.map fun perm =>
    { indexPatterns := perm.index_patterns.map stringToComboBoxOption
      allowedActions := []
      docLevelSecurity := perm.dls
      fieldLevelSecurityMethod := getFieldLevelSecurityMethod perm.fls
      fieldLevelSecurityFields := getFieldLevelSecurityFields perm.fls
      maskedFields := [] }

/-- Embeds unbuildIndexPermissionState (lines 99-109). -/
def unbuildIndexPermissionState (indexPerm : List RoleIndexPermissionStateClass) :
    List RoleIndexPermission :=
  indexPerm.map fun perm =>
    { index_patterns := perm.indexPatterns.map comboBoxOptionToString
      dls := perm.docLevelSecurity
      fls := packFieldLevelSecurity perm.fieldLevelSecurityMethod
        perm.fieldLevelSecurityFields
      masked_fields := perm.maskedFields.map comboBoxOptionToString
      allowed_actions := perm.allowedActions.map comboBoxOptionToString }

/-- Embeds the EuiAccordion buttonContent of generateIndexPermissionPanels
(lines 266-269): the index-pattern strings joined by comma-space, with the
JS or-operator falling back to the placeholder text exactly when the joined
string is empty (the only falsy string). -/
def accordionButtonContent (permission : RoleIndexPermissionStateClass) : Str :=
  let joined :=
    List.intercalate ", ".data (permission.indexPatterns.map comboBoxOptionToString)
  if joined = [] then "Add index permission".data else joined

/-- Modelled from the spec: appendElementToArray from array-state-utils (the
file is not part of this excerpt). Per the spec, adding an entry appends it,
increasing the array length by one. -/
def appendElementToArray (xs : List α) (x : α) : List α := xs ++ [x]

/-- Modelled from the spec: removeElementFromArray from array-state-utils
(the file is not part of this excerpt). Per the spec, removing index i
removes exactly the entry at i, preserving the relative order of the rest. -/
def removeElementFromArray (xs : List α) (i : Nat) : List α := xs.eraseIdx i

/-- Embeds the add-button onClick of IndexPermissionPanel (lines 326-332):
append a fresh empty permission entry to the parent-owned array. -/
def addIndexPermission (state : List RoleIndexPermissionStateClass) :
    List RoleIndexPermissionStateClass :=
  appendElementToArray state getEmptyIndexPermission

/-- Embeds the remove-button onClick of generateIndexPermissionPanels
(line 273): remove the entry at the given array index. -/
def removeIndexPermission (state : List RoleIndexPermissionStateClass)
    (arrayIndex : Nat) : List RoleIndexPermissionStateClass :=
  removeElementFromArray state arrayIndex

/-- Concrete sample wire permission with an all-marked fls list, used to
instantiate round-trip statements. -/
def sampleWireMarked : RoleIndexPermission :=
  { index_patterns := [['i']], dls := ['d'], fls := [['~', 'a'], ['~', 'b']],
    masked_fields := [['m']], allowed_actions := [['x']] }

/-- Concrete sample token list whose tokens contain extra marker characters
beyond the leading one. -/
def markedTokensSample : List Str := [['~', '~', 'a'], ['~', 'x', '~']]

/-- Concrete state entry holding two index-pattern options whose labels are
both the empty string. -/
def twoEmptyPatternsEntry : RoleIndexPermissionStateClass :=
  { indexPatterns := [⟨[]⟩, ⟨[]⟩], allowedActions := [], docLevelSecurity := [],
    fieldLevelSecurityMethod := "exclude".data, fieldLevelSecurityFields := [],
    maskedFields := [] }

/-! ### Helper lemmas -/

lemma map_toString_map_toOption (l : List Str) :
    (l.map stringToComboBoxOption).map comboBoxOptionToString = l := by
  simp [List.map_map, Function.comp_def, comboBoxOptionToString,
    stringToComboBoxOption]

lemma strip_of_startsWithTilde_false {s : Str} (h : startsWithTilde s = false) :
    stripLeadingTilde s = s := by
  cases s with
  | nil => rfl
  | cons c t =>
    simp only [startsWithTilde, beq_eq_false_iff_ne, ne_eq] at h
    simp [stripLeadingTilde, h]

lemma tilde_cons_strip {s : Str} (h : startsWithTilde s = true) :
    '~' :: stripLeadingTilde s = s := by
  cases s with
  | nil => simp [startsWithTilde] at h
  | cons c t =>
    simp only [startsWithTilde, beq_iff_eq] at h
    subst h
    simp [stripLeadingTilde]

/-- Central round-trip fact: on a uniformly marked (or unmarked, or empty)
token list, packing the extracted method and fields reproduces the list. -/
lemma pack_get_roundtrip (fls : List Str)
    (h : (∀ s ∈ fls, startsWithTilde s = true) ∨
         (∀ s ∈ fls, startsWithTilde s = false)) :
    packFieldLevelSecurity (getFieldLevelSecurityMethod fls)
      (getFieldLevelSecurityFields fls) = fls := by
  rcases h with h | h
  · cases fls with
    | nil => rfl
    | cons x rest =>
      have hany : (x :: rest).any startsWithTilde = true := by
        simp [List.any_cons, h x (by simp)]
      simp only [getFieldLevelSecurityMethod, hany, if_true]
      simp only [packFieldLevelSecurity, getFieldLevelSecurityFields]
      rw [if_neg (by decide : ¬ ("exclude".data = "include".data))]
      rw [map_toString_map_toOption, List.map_map]
      have : ∀ s ∈ x :: rest, ('~' :: stripLeadingTilde s) = s :=
        fun s hs => tilde_cons_strip (h s hs)
      calc ((x :: rest).map fun s => '~' :: stripLeadingTilde s)
          = (x :: rest).map id := List.map_congr_left this
        _ = x :: rest := List.map_id _
  · have hany : fls.any startsWithTilde = false := by
      rw [List.any_eq_false]
      intro x hx
      simp [h x hx]
    simp only [getFieldLevelSecurityMethod, hany, Bool.false_eq_true, if_false]
    simp only [packFieldLevelSecurity, getFieldLevelSecurityFields, if_pos]
    rw [map_toString_map_toOption]
    calc fls.map stripLeadingTilde
        = fls.map id := List.map_congr_left fun s hs =>
            strip_of_startsWithTilde_false (h s hs)
      _ = fls := List.map_id _

lemma method_exclude_iff (fls : List Str) :
    getFieldLevelSecurityMethod fls = "exclude".data ↔
      ∃ s ∈ fls, startsWithTilde s = true := by
  rw [show (∃ s ∈ fls, startsWithTilde s = true) ↔
      fls.any startsWithTilde = true from by simp [List.any_eq_true]]
  unfold getFieldLevelSecurityMethod
  cases hb : fls.any startsWithTilde <;> decide

lemma method_include_iff (fls : List Str) :
    getFieldLevelSecurityMethod fls = "include".data ↔
      ∀ s ∈ fls, startsWithTilde s = false := by
  rw [show (∀ s ∈ fls, startsWithTilde s = false) ↔
      fls.any startsWithTilde = false from by simp [List.any_eq_false]]
  unfold getFieldLevelSecurityMethod
  cases hb : fls.any startsWithTilde <;> decide

/-! ### Claim theorems -/

/-- C1: for a wire permission whose fls list is empty, all marked, or all
unmarked, unbuild after build yields exactly one wire permission with the
same fls, index_patterns and dls, and empty allowed_actions and
masked_fields. -/
theorem claim_C1 (p : RoleIndexPermission)
    (h : p.fls = [] ∨ (∀ s ∈ p.fls, startsWithTilde s = true) ∨
         (∀ s ∈ p.fls, startsWithTilde s = false)) :
    unbuildIndexPermissionState (buildIndexPermissionState [p]) =
      [{ index_patterns := p.index_patterns, dls := p.dls, fls := p.fls,
         masked_fields := [], allowed_actions := [] }] := by
  have hu : (∀ s ∈ p.fls, startsWithTilde s = true) ∨
      (∀ s ∈ p.fls, startsWithTilde s = false) := by
    rcases h with h | h | h
    · exact Or.inl (by simp [h])
    · exact Or.inl h
    · exact Or.inr h
  simp only [buildIndexPermissionState, unbuildIndexPermissionState, List.map_cons,
    List.map_nil]
  rw [pack_get_roundtrip p.fls hu, map_toString_map_toOption]

/-- C1 witness: a concrete all-marked wire permission round-trips. -/
theorem claim_C1_witness :
    (sampleWireMarked.fls = [] ∨
      (∀ s ∈ sampleWireMarked.fls, startsWithTilde s = true) ∨
      (∀ s ∈ sampleWireMarked.fls, startsWithTilde s = false)) ∧
    unbuildIndexPermissionState (buildIndexPermissionState [sampleWireMarked]) =
      [{ index_patterns := [['i']], dls := ['d'], fls := [['~', 'a'], ['~', 'b']],
         masked_fields := [], allowed_actions := [] }] :=
  ⟨by decide, claim_C1 sampleWireMarked (by decide)⟩

/-- C2: built entries have method exclude exactly when some token starts
with the tilde marker (include otherwise), and fields equal to the tokens
with the leading marker stripped from every token before conversion to
options; plus the three concrete method examples from the spec. -/
theorem claim_C2 (ps : List RoleIndexPermission) :
    List.Forall₂ (fun e p =>
        (e.fieldLevelSecurityMethod = "exclude".data ↔
          ∃ s ∈ p.fls, startsWithTilde s = true) ∧
        (e.fieldLevelSecurityMethod = "include".data ↔
          ∀ s ∈ p.fls, startsWithTilde s = false) ∧
        e.fieldLevelSecurityFields =
          (p.fls.map stripLeadingTilde).map stringToComboBoxOption)
      (buildIndexPermissionState ps) ps ∧
    getFieldLevelSecurityMethod [] = "include".data ∧
    getFieldLevelSecurityMethod [['~', 'a']] = "exclude".data ∧
    getFieldLevelSecurityMethod [['a'], ['~', 'b']] = "exclude".data := by
  refine ⟨?_, by decide, by decide, by decide⟩
  unfold buildIndexPermissionState
  rw [List.forall₂_map_left_iff, List.forall₂_same]
  intro p _
  exact ⟨method_exclude_iff p.fls, method_include_iff p.fls, rfl⟩

/-- C3: packFieldLevelSecurity converts options to strings and prepends the
tilde marker exactly for the exclude method, and unbuildIndexPermissionState
maps each state entry to the wire shape field by field with fls produced by
packFieldLevelSecurity and dls copied verbatim. -/
theorem claim_C3 (a b : ComboBoxOption) (opts : ComboBoxOptions)
    (es : List RoleIndexPermissionStateClass) :
    packFieldLevelSecurity "include".data [a, b] =
      [comboBoxOptionToString a, comboBoxOptionToString b] ∧
    packFieldLevelSecurity "exclude".data [a, b] =
      ['~' :: comboBoxOptionToString a, '~' :: comboBoxOptionToString b] ∧
    packFieldLevelSecurity "include".data opts = opts.map comboBoxOptionToString ∧
    packFieldLevelSecurity "exclude".data opts =
      (opts.map comboBoxOptionToString).map (fun field => '~' :: field) ∧
    List.Forall₂ (fun w e =>
        w.fls = packFieldLevelSecurity e.fieldLevelSecurityMethod
          e.fieldLevelSecurityFields ∧
        w.index_patterns = e.indexPatterns.map comboBoxOptionToString ∧
        w.masked_fields = e.maskedFields.map comboBoxOptionToString ∧
        w.allowed_actions = e.allowedActions.map comboBoxOptionToString ∧
        w.dls = e.docLevelSecurity)
      (unbuildIndexPermissionState es) es := by
  refine ⟨?_, ?_, ?_, ?_, ?_⟩
  · unfold packFieldLevelSecurity
    rw [if_pos rfl]
    rfl
  · unfold packFieldLevelSecurity
    rw [if_neg (by decide)]
    rfl
  · unfold packFieldLevelSecurity
    rw [if_pos rfl]
  · unfold packFieldLevelSecurity
    rw [if_neg (by decide)]
  · unfold unbuildIndexPermissionState
    rw [List.forall₂_map_left_iff, List.forall₂_same]
    intro e _
    exact ⟨rfl, rfl, rfl, rfl, rfl⟩

/-- C4: buildIndexPermissionState leaves allowedActions and maskedFields
empty in every produced entry, whatever the wire values were. -/
theorem claim_C4 (ps : List RoleIndexPermission) :
    (buildIndexPermissionState ps).map RoleIndexPermissionStateClass.allowedActions =
      List.replicate ps.length [] ∧
    (buildIndexPermissionState ps).map RoleIndexPermissionStateClass.maskedFields =
      List.replicate ps.length [] := by
  induction ps with
  | nil => exact ⟨rfl, rfl⟩
  | cons p t ih =>
    simp only [buildIndexPermissionState, List.map_cons, List.length_cons,
      List.replicate_succ] at ih ⊢
    exact ⟨by rw [ih.1], by rw [ih.2]⟩

/-- C5: getEmptyIndexPermission is exactly the record with empty lists, the
empty dls string and the exclude method, and the add action appends exactly
this value. -/
theorem claim_C5 (state : List RoleIndexPermissionStateClass) :
    getEmptyIndexPermission =
      { indexPatterns := [], allowedActions := [], docLevelSecurity := [],
        fieldLevelSecurityMethod := "exclude".data,
        fieldLevelSecurityFields := [], maskedFields := [] } ∧
    addIndexPermission state = state ++ [getEmptyIndexPermission] :=
  ⟨rfl, rfl⟩

/-- C6 counterexample: the claim promises a literal round-trip for every fls
list, but a mixed list (one unmarked and one marked token) comes back with
both tokens marked. -/
theorem claim_C6_counterexample :
    (unbuildIndexPermissionState (buildIndexPermissionState
      [{ index_patterns := [], dls := [], fls := [['a'], ['~', 'b']],
         masked_fields := [], allowed_actions := [] }])).map
      RoleIndexPermission.fls ≠ [[['a'], ['~', 'b']]] := by
  decide

/-- C6 amended: for every fls list in which the tokens are uniformly marked
or uniformly unmarked (no content validation: tokens may contain further
marker characters anywhere, including extra leading ones), extracting method
and fields and packing them back reproduces the tokens literally. -/
theorem claim_C6 (fls : List Str)
    (h : (∀ s ∈ fls, startsWithTilde s = true) ∨
         (∀ s ∈ fls, startsWithTilde s = false)) :
    packFieldLevelSecurity (getFieldLevelSecurityMethod fls)
      (getFieldLevelSecurityFields fls) = fls :=
  pack_get_roundtrip fls h

/-- C6 witness: tokens carrying extra marker characters round-trip
literally. -/
theorem claim_C6_witness :
    ((∀ s ∈ markedTokensSample, startsWithTilde s = true) ∨
      (∀ s ∈ markedTokensSample, startsWithTilde s = false)) ∧
    packFieldLevelSecurity (getFieldLevelSecurityMethod markedTokensSample)
      (getFieldLevelSecurityFields markedTokensSample) = markedTokensSample :=
  ⟨by decide, claim_C6 markedTokensSample (by decide)⟩

lemma eraseIdx_eq_take_append_drop (xs : List α) (i : Nat) :
    xs.eraseIdx i = xs.take i ++ xs.drop (i + 1) := by
  induction xs generalizing i with
  | nil => cases i <;> rfl
  | cons x t ih =>
    cases i with
    | zero => simp [List.eraseIdx]
    | succ n => simp [List.eraseIdx, ih n]

/-- C7: the add action appends exactly one entry, whose fields are the
defaults of getEmptyIndexPermission, and the remove action at a valid index
removes exactly that entry, keeping the remaining entries in order. -/
theorem claim_C7 (xs : List RoleIndexPermissionStateClass) (i : Nat)
    (h : i < xs.length) :
    (addIndexPermission xs).length = xs.length + 1 ∧
    addIndexPermission xs = xs ++ [getEmptyIndexPermission] ∧
    (removeIndexPermission xs i).length = xs.length - 1 ∧
    removeIndexPermission xs i = xs.take i ++ xs.drop (i + 1) := by
  refine ⟨?_, rfl, ?_, eraseIdx_eq_take_append_drop xs i⟩
  · simp [addIndexPermission, appendElementToArray]
  · show (xs.eraseIdx i).length = xs.length - 1
    have := List.length_eraseIdx_add_one h
    omega

/-- C7 witness. -/
theorem claim_C7_witness :
    (0 : Nat) < ([getEmptyIndexPermission] :
        List RoleIndexPermissionStateClass).length ∧
    ((addIndexPermission [getEmptyIndexPermission]).length =
        ([getEmptyIndexPermission] :
          List RoleIndexPermissionStateClass).length + 1 ∧
      addIndexPermission [getEmptyIndexPermission] =
        [getEmptyIndexPermission] ++ [getEmptyIndexPermission] ∧
      (removeIndexPermission [getEmptyIndexPermission] 0).length =
        ([getEmptyIndexPermission] :
          List RoleIndexPermissionStateClass).length - 1 ∧
      removeIndexPermission [getEmptyIndexPermission] 0 =
        ([getEmptyIndexPermission] :
            List RoleIndexPermissionStateClass).take 0 ++
          ([getEmptyIndexPermission] :
            List RoleIndexPermissionStateClass).drop 1) :=
  ⟨by decide, claim_C7 [getEmptyIndexPermission] 0 (by decide)⟩

lemma joined_eq_nil_iff (opts : ComboBoxOptions) :
    List.intercalate ", ".data (opts.map comboBoxOptionToString) = [] ↔
      opts = [] ∨ opts = [⟨[]⟩] := by
  cases opts with
  | nil => simp [List.intercalate]
  | cons o t =>
    cases t with
    | nil =>
      obtain ⟨l⟩ := o
      simp [List.intercalate, comboBoxOptionToString]
    | cons o2 t2 =>
      refine iff_of_false ?_ (by simp)
      simp only [List.map_cons, List.intercalate, List.intersperse_cons_cons,
        List.flatten_cons]
      simp [List.append_eq_nil]

/-- C8 counterexample: an entry with two empty-string index patterns has
every pattern empty, yet the joined summary is the comma-space separator, so
the placeholder is not shown. -/
theorem claim_C8_counterexample :
    twoEmptyPatternsEntry.indexPatterns.length = 2 ∧
    (∀ o ∈ twoEmptyPatternsEntry.indexPatterns, o.label = []) ∧
    accordionButtonContent twoEmptyPatternsEntry ≠
      "Add index permission".data := by
  exact ⟨rfl, by decide, by decide⟩

/-- C8 amended: the summary is the index-pattern strings joined by
comma-space, the placeholder is shown exactly when the joined string is
empty, and the joined string is empty exactly when the entry has no index
patterns or a single pattern that is the empty string. -/
theorem claim_C8 (e : RoleIndexPermissionStateClass) :
    accordionButtonContent e =
      (if List.intercalate ", ".data
          (e.indexPatterns.map comboBoxOptionToString) = []
        then "Add index permission".data
        else List.intercalate ", ".data
          (e.indexPatterns.map comboBoxOptionToString)) ∧
    (List.intercalate ", ".data (e.indexPatterns.map comboBoxOptionToString) = []
      ↔ e.indexPatterns = [] ∨ e.indexPatterns = [⟨[]⟩]) :=
  ⟨rfl, joined_eq_nil_iff e.indexPatterns⟩

/-- C9: packing the exclude method with an empty field list yields the empty
fls, so such a state entry (in particular the new-entry default) comes back
from the wire with the include method. -/
theorem claim_C9 (e : RoleIndexPermissionStateClass)
    (h1 : e.fieldLevelSecurityMethod = "exclude".data)
    (h2 : e.fieldLevelSecurityFields = []) :
    packFieldLevelSecurity "exclude".data [] = [] ∧
    (buildIndexPermissionState (unbuildIndexPermissionState [e])).map
      RoleIndexPermissionStateClass.fieldLevelSecurityMethod =
      ["include".data] := by
  refine ⟨by decide, ?_⟩
  simp only [unbuildIndexPermissionState, buildIndexPermissionState,
    List.map_cons, List.map_nil]
  rw [h1, h2]
  decide

/-- C9 witness: the new-entry default demonstrates the method flip. -/
theorem claim_C9_witness :
    getEmptyIndexPermission.fieldLevelSecurityMethod = "exclude".data ∧
    getEmptyIndexPermission.fieldLevelSecurityFields = [] ∧
    (packFieldLevelSecurity "exclude".data [] = [] ∧
      (buildIndexPermissionState
          (unbuildIndexPermissionState [getEmptyIndexPermission])).map
        RoleIndexPermissionStateClass.fieldLevelSecurityMethod =
        ["include".data]) :=
  ⟨rfl, rfl, claim_C9 getEmptyIndexPermission rfl rfl⟩

/-- C10: the field extraction keeps length and order, maps each token to the
token with at most a single leading marker removed, and never touches marker
characters elsewhere in a token. -/
theorem claim_C10 (fls : List Str) :
    (getFieldLevelSecurityFields fls).length = fls.length ∧
    (getFieldLevelSecurityFields fls).map comboBoxOptionToString =
      fls.map stripLeadingTilde ∧
    stripLeadingTilde [] = [] ∧
    (∀ c t, stripLeadingTilde (c :: t) = if c = '~' then t else c :: t) ∧
    stripLeadingTilde ['~', '~', 'a'] = ['~', 'a'] ∧
    stripLeadingTilde ['a', '~', 'b'] = ['a', '~', 'b'] := by
  refine ⟨?_, map_toString_map_toOption _, rfl, ?_, by decide, by decide⟩
  · simp [getFieldLevelSecurityFields]
  · intro c t
    by_cases hc : c = '~'
    · simp [stripLeadingTilde, hc]
    · simp [stripLeadingTilde, hc]
